import Mathlib

/-!
Verification of STM32BufferedSerial

A shallow embedding of the `STM32BufferedSerial` class
(STM32BufferedSerial.cpp / STM32BufferedSerial.hpp): a fixed-capacity
circular byte queue used once for the receive direction and once for the
transmit direction, the interrupt completion handlers, the public
read/write surface, and the static instance-registry table.

Machine integers (`uint16_t` indices, `uint8_t` bytes) are modelled as
`Nat`; the source keeps indices strictly below the buffer size via
`% size`, so no 16-bit wraparound can occur and the `Nat` model is exact
on the reachable states. Byte values are never arithmetically combined,
so `Nat` is exact for them as well.  Fallible calls returning `-1`
(`read`) are modelled with `Option`; the `int` result of `write` is kept
as `Int` (`1` or `-1`) to match the comparison `write(data[i]) == 1` in
the source.
-/

namespace BufferedSerial

/-- HAL status result of a transfer request, modelling `HAL_StatusTypeDef`
restricted to the two outcomes the driver distinguishes
(`HAL_OK` versus everything else, in practice `HAL_BUSY`). -/
inductive HALStatus where
  | ok
  | busy
deriving DecidableEq, Repr

/-- Model of the external UART transport endpoint (`UART_HandleTypeDef`)
as specified by the collaborator contract (spec section 6): a one-unit
receive request facility with an idle/busy status and a lock, a one-unit
transmit facility, and bookkeeping observables.

* `rxOutstanding` counts inbound one-unit receive requests currently
  outstanding on the hardware;
* `rxBusy` is the receive-busy flag of the transport (`RxState`); it can be
  stale: set while no request is logically outstanding (the race the
  busy-recovery path exists for);
* `locked` is the HAL lock (`huart->Lock`);
* `gStateReady` is the transmit state query
  (`huart->gState == HAL_UART_STATE_READY`);
* `rxAttempts` counts invocations of the receive-request call
  (accepted or rejected);
* `txSent` records, in order, the bytes handed to the one-unit transmit
  request call. -/
structure Uart where
  rxOutstanding : Nat
  rxBusy : Bool
  locked : Bool
  gStateReady : Bool
  rxAttempts : Nat
  txSent : List Nat
deriving DecidableEq, Repr

/-- `HAL_UART_Receive_IT(huart, &_rxTmp, 1)`: rejected with `HAL_BUSY`
when the transport reports itself busy or locked; otherwise accepted,
making one more receive request outstanding. Every invocation is counted
in `rxAttempts`. -/
def HAL_UART_Receive_IT (u : Uart) : HALStatus × Uart :=
  if u.rxBusy || u.locked then
    (HALStatus.busy, { u with rxAttempts := u.rxAttempts + 1 })
  else
    (HALStatus.ok,
      { u with rxOutstanding := u.rxOutstanding + 1, rxBusy := true,
               rxAttempts := u.rxAttempts + 1 })

/-- `__HAL_UNLOCK(huart)`: clears the HAL lock. -/
def HAL_UNLOCK (u : Uart) : Uart := { u with locked := false }

/-- `HAL_UART_AbortReceive(huart)`: aborts the outstanding receive
operation (if any) and clears the receive-busy state. -/
def HAL_UART_AbortReceive (u : Uart) : Uart :=
  { u with rxOutstanding := 0, rxBusy := false }

/-- `HAL_UART_Transmit_IT(huart, &data, 1)`: hands one byte to the
hardware and leaves the transmit state busy until completion. -/
def HAL_UART_Transmit_IT (u : Uart) (data : Nat) : Uart :=
  { u with txSent := u.txSent ++ [data], gStateReady := false }

/-- The circular buffer of one direction: backing storage of `size` bytes
(`_rxBuf`/`_txBuf` with `_rxSize`/`_txSize`), a write index `head`
(`_rxHead`/`_txHead`) and a read index `tail` (`_rxTail`/`_txTail`).
The storage is modelled as a total function from index to byte. -/
structure Ring where
  size : Nat
  buf : Nat → Nat
  head : Nat
  tail : Nat

/-- The store step shared by `handleRxComplete` (lines 30-34) and the
private `push` method (lines 110-117): if advancing `head` would not
collide with `tail`, store the byte at `head` and advance; otherwise
drop the byte and change nothing. -/
def Ring.push (r : Ring) (c : Nat) : Ring :=
  let next := (r.head + 1) % r.size
  if next ≠ r.tail then
    { r with buf := Function.update r.buf r.head c, head := next }
  else
    r

/-- The dequeue step shared by `read` (lines 78-83), the private `pop`
(lines 119-125), and the transmit-side dequeues (lines 51-54, 69-72):
`none` when `head == tail` (empty, the source returns `-1`), otherwise
the byte at `tail` with `tail` advanced. -/
def Ring.pop (r : Ring) : Option Nat × Ring :=
  if r.head = r.tail then (none, r)
  else (some (r.buf r.tail), { r with tail := (r.tail + 1) % r.size })

/-- `readable_len()` (lines 156-160), translated branch for branch:
`if (_rxHead < _rxTail) return _rxSize - (_rxTail - _rxHead);
 else return _rxHead - _rxTail;`. -/
def Ring.readable_len (r : Ring) : Nat :=
  if r.head < r.tail then r.size - (r.tail - r.head)
  else r.head - r.tail

/-- `available()` (lines 152-154): `_rxHead != _rxTail`. -/
def Ring.available (r : Ring) : Bool := r.head ≠ r.tail

/-- The state of one `STM32BufferedSerial` instance: the inbound ring
(`_rxBuf`, `_rxSize`, `_rxHead`, `_rxTail`), the outbound ring
(`_txBuf`, `_txSize`, `_txHead`, `_txTail`), the one-byte staging cell
`_rxTmp`, and the owned transport handle `_huart`. -/
structure Port where
  rx : Ring
  tx : Ring
  rxTmp : Nat
  uart : Uart

/-- `handleRxComplete()` (lines 28-44): store the staged byte `_rxTmp`
into the inbound ring if there is room (dropped otherwise), then re-arm
the one-unit receive.  If the re-arm is rejected (`!= HAL_OK`), unlock
the transport, abort the stale receive and retry the arm once. -/
def handleRxComplete (p : Port) : Port :=
  let rx' := p.rx.push p.rxTmp
  let r1 := HAL_UART_Receive_IT p.uart
  if r1.1 = HALStatus.ok then
    { p with rx := rx', uart := r1.2 }
  else
    { p with rx := rx',
             uart := (HAL_UART_Receive_IT (HAL_UART_AbortReceive (HAL_UNLOCK r1.2))).2 }

/-- `handleTxComplete()` (lines 50-56): if the outbound ring is
non-empty, dequeue the byte at `_txTail`, advance `_txTail`, and issue a
one-unit transmit of that byte; otherwise do nothing. -/
def handleTxComplete (p : Port) : Port :=
  if p.tx.tail ≠ p.tx.head then
    let data := p.tx.buf p.tx.tail
    { p with tx := { p.tx with tail := (p.tx.tail + 1) % p.tx.size },
             uart := HAL_UART_Transmit_IT p.uart data }
  else
    p

/-- `_startTxInterrupt()` (lines 68-73): early-return if the outbound
ring is empty, otherwise dequeue the byte at `_txTail` and issue a
one-unit transmit of it. -/
def startTxInterrupt (p : Port) : Port :=
  if p.tx.tail = p.tx.head then p
  else
    let data := p.tx.buf p.tx.tail
    { p with tx := { p.tx with tail := (p.tx.tail + 1) % p.tx.size },
             uart := HAL_UART_Transmit_IT p.uart data }

/-- `read()` (lines 78-83): `-1` (here `none`) if the inbound ring is
empty, otherwise the byte at `_rxTail` with `_rxTail` advanced. -/
def Port.read (p : Port) : Option Nat × Port :=
  if p.rx.tail = p.rx.head then (none, p)
  else
    (some (p.rx.buf p.rx.tail),
     { p with rx := { p.rx with tail := (p.rx.tail + 1) % p.rx.size } })

/-- `write(uint8_t)` (lines 88-99): fail with `-1` if the outbound ring
is full; otherwise store the byte at `_txHead`, advance `_txHead`, and
if the transmit state of the transport is ready, kick off transmission
synchronously; return `1`. -/
def write (p : Port) (data : Nat) : Int × Port :=
  let next := (p.tx.head + 1) % p.tx.size
  if next = p.tx.tail then (-1, p)
  else
    let p1 : Port :=
      { p with tx := { p.tx with buf := Function.update p.tx.buf p.tx.head data,
                                 head := next } }
    let p2 := if p1.uart.gStateReady then startTxInterrupt p1 else p1
    (1, p2)

/-- `write(const uint8_t*, uint16_t)` (lines 101-108): push the bytes one
at a time through the single-byte `write`, counting successes, stopping
at the first failure. -/
def writeMany (p : Port) (data : List Nat) : Nat × Port :=
  match data with
  | [] => (0, p)
  | d :: rest =>
    let r := write p d
    if r.1 = 1 then
      let w := writeMany r.2 rest
      (w.1 + 1, w.2)
    else
      (0, r.2)

/-- The `Instance` member of a UART handle: one of the six supported
peripherals (`USART1`, `USART2`, `USART3`, `UART4`, `UART5`, `USART6`),
or any other peripheral, which every `if`/`else if` chain in the
registry falls through. -/
inductive UartInstance where
  | usart1
  | usart2
  | usart3
  | uart4
  | uart5
  | usart6
  | other
deriving DecidableEq, Repr

/-- The slot of `instance_table_` selected by the `if`/`else if` chains
of `registerInstance` (lines 128-136) and `fromHandle` (lines 138-147);
`none` for a peripheral outside the six supported ones. -/
def instanceIndex : UartInstance → Option (Fin 6)
  | UartInstance.usart1 => some 0
  | UartInstance.usart2 => some 1
  | UartInstance.usart3 => some 2
  | UartInstance.uart4 => some 3
  | UartInstance.uart5 => some 4
  | UartInstance.usart6 => some 5
  | UartInstance.other => none

/-- The registry: `STM32BufferedSerial* instance_table_[MAX_UARTS]`.
Registered ports are identified abstractly by a `Nat` (the pointer
value); an empty slot (`nullptr`) is `none`. -/
def RegistryTable : Type := Fin 6 → Option Nat

/-- `instance_table_[MAX_UARTS] = {nullptr}` (line 5). -/
def initialTable : RegistryTable := fun _ => none

/-- `registerInstance(huart, instance)` (lines 128-136): store the
instance pointer in the slot matching `huart->Instance`; a handle whose
`Instance` is none of the six falls through the chain and nothing
is stored. -/
def registerInstance (tbl : RegistryTable) (inst : UartInstance) (port : Nat) :
    RegistryTable :=
  match instanceIndex inst with
  | some i => Function.update tbl i (some port)
  | none => tbl

/-- `fromHandle(huart)` (lines 138-147): the slot matching
`huart->Instance`, or `nullptr` (`none`) when `Instance` is none of the
six supported peripherals. -/
def fromHandle (tbl : RegistryTable) (inst : UartInstance) : Option Nat :=
  match instanceIndex inst with
  | some i => tbl i
  | none => none

/-- A sequence of explicit `registerInstance` calls applied in order. -/
def registerAll (tbl : RegistryTable) (regs : List (UartInstance × Nat)) :
    RegistryTable :=
  regs.foldl (fun t r => registerInstance t r.1 r.2) tbl

/-- The constructor (lines 7-19): initializes both rings empty with the
requested capacity, zeroes the staging byte, keeps the handed-in
transport handle — and, on line 18, calls
`registerInstance(_huart, this)`, so construction itself writes the
registry.  The fresh storage returned by `new uint8_t[...]` is
uninitialized; it is modelled as all zeros (its contents are never read
before being written). -/
def construct (tbl : RegistryTable) (inst : UartInstance) (self : Nat)
    (huart : Uart) (bufSize : Nat) : RegistryTable × Port :=
  (registerInstance tbl inst self,
   { rx := { size := bufSize, buf := fun _ => 0, head := 0, tail := 0 },
     tx := { size := bufSize, buf := fun _ => 0, head := 0, tail := 0 },
     rxTmp := 0,
     uart := huart })

/-- One application-visible inbound event on a port, for stating
whole-run invariants: either the hardware completes a one-unit receive
of byte `c` (writing `c` into the staging cell and invoking
`handleRxComplete`), or the application calls `read()`. -/
inductive SerialOp where
  | rxByte (c : Nat)
  | read
deriving DecidableEq, Repr

/-- Apply one inbound event. -/
def step (p : Port) : SerialOp → Port
  | SerialOp.rxByte c => handleRxComplete { p with rxTmp := c }
  | SerialOp.read => (Port.read p).2

/-- Run a sequence of inbound events. -/
def runOps (p : Port) (ops : List SerialOp) : Port := ops.foldl step p

/-- Number of pushes the inbound ring accepts along a run (a `rxByte`
event whose byte is actually stored rather than dropped). -/
def countAccepted (p : Port) : List SerialOp → Nat
  | [] => 0
  | op :: rest =>
    (match op with
     | SerialOp.rxByte _ => if (p.rx.head + 1) % p.rx.size ≠ p.rx.tail then 1 else 0
     | SerialOp.read => 0) + countAccepted (step p op) rest

/-- Number of pops actually performed along a run (a `read` event that
returns a byte rather than the empty sentinel). -/
def countPopped (p : Port) : List SerialOp → Nat
  | [] => 0
  | op :: rest =>
    (match op with
     | SerialOp.rxByte _ => 0
     | SerialOp.read => if p.rx.tail ≠ p.rx.head then 1 else 0) + countPopped (step p op) rest

/-! ## Index arithmetic and single-step lemmas -/

/-- Advancing an in-range index: `(a + 1) % n` either wraps to `0` or is
the plain successor. -/
theorem mod_succ_eq {a n : Nat} (h : a < n) :
    (a + 1) % n = if a + 1 = n then 0 else a + 1 := by
  split_ifs with h1
  · rw [h1, Nat.mod_self]
  · exact Nat.mod_eq_of_lt (by omega)

theorem Ring.push_size (r : Ring) (c : Nat) : (r.push c).size = r.size := by
  simp only [Ring.push]
  split <;> rfl

theorem Ring.push_tail (r : Ring) (c : Nat) : (r.push c).tail = r.tail := by
  simp only [Ring.push]
  split <;> rfl

theorem Ring.push_head_lt (r : Ring) (c : Nat) (hh : r.head < r.size) :
    (r.push c).head < r.size := by
  simp only [Ring.push]
  split
  · exact Nat.mod_lt _ (by omega)
  · exact hh

theorem Ring.push_full (r : Ring) (c : Nat)
    (hfull : (r.head + 1) % r.size = r.tail) : r.push c = r := by
  simp only [Ring.push]
  rw [if_neg (not_not_intro hfull)]

theorem Ring.pop_size (r : Ring) : (r.pop).2.size = r.size := by
  simp only [Ring.pop]
  split <;> rfl

theorem Ring.pop_head (r : Ring) : (r.pop).2.head = r.head := by
  simp only [Ring.pop]
  split <;> rfl

theorem Ring.pop_tail_lt (r : Ring) (ht : r.tail < r.size) :
    (r.pop).2.tail < r.size := by
  simp only [Ring.pop]
  split
  · exact ht
  · exact Nat.mod_lt _ (by omega)

theorem Ring.pop_empty (r : Ring) (he : r.head = r.tail) : r.pop = (none, r) := by
  simp only [Ring.pop]
  rw [if_pos he]

theorem Ring.readable_len_le (r : Ring) (hh : r.head < r.size) (ht : r.tail < r.size) :
    r.readable_len ≤ r.size - 1 := by
  simp only [Ring.readable_len]
  split <;> omega

theorem Ring.readable_len_push (r : Ring) (c : Nat) (hh : r.head < r.size)
    (ht : r.tail < r.size) (hacc : (r.head + 1) % r.size ≠ r.tail) :
    (r.push c).readable_len = r.readable_len + 1 := by
  simp only [Ring.push]
  rw [if_pos hacc]
  simp only [Ring.readable_len]
  rw [mod_succ_eq hh] at hacc ⊢
  split_ifs at hacc ⊢ <;> omega

theorem Ring.readable_len_pop (r : Ring) (hh : r.head < r.size)
    (ht : r.tail < r.size) (hne : r.head ≠ r.tail) :
    (r.pop).2.readable_len + 1 = r.readable_len := by
  simp only [Ring.pop]
  rw [if_neg hne]
  simp only [Ring.readable_len]
  rw [mod_succ_eq ht]
  split_ifs <;> omega

/-! ## Bridging lemmas between the port operations and the ring steps -/

theorem handleRxComplete_rx (p : Port) :
    (handleRxComplete p).rx = p.rx.push p.rxTmp := by
  simp only [handleRxComplete]
  split <;> rfl

theorem handleRxComplete_tx (p : Port) : (handleRxComplete p).tx = p.tx := by
  simp only [handleRxComplete]
  split <;> rfl

theorem step_rx (p : Port) (c : Nat) :
    (step p (SerialOp.rxByte c)).rx = p.rx.push c := by
  simp only [step]
  exact handleRxComplete_rx _

theorem read_snd_rx (p : Port) : ((Port.read p).2).rx = (Ring.pop p.rx).2 := by
  simp only [Port.read, Ring.pop]
  by_cases h : p.rx.tail = p.rx.head
  · rw [if_pos h, if_pos h.symm]
  · rw [if_neg h, if_neg (Ne.symm h)]

theorem read_fst (p : Port) : (Port.read p).1 = (Ring.pop p.rx).1 := by
  simp only [Port.read, Ring.pop]
  by_cases h : p.rx.tail = p.rx.head
  · rw [if_pos h, if_pos h.symm]
  · rw [if_neg h, if_neg (Ne.symm h)]

/-! ## The whole-run inbound invariant -/

/-- Every run of inbound events keeps the inbound indices in range,
preserves the capacity, and balances the queue length against the
number of accepted pushes and performed pops. -/
theorem runOps_invariant (ops : List SerialOp) (p : Port)
    (hh : p.rx.head < p.rx.size) (ht : p.rx.tail < p.rx.size) :
    (runOps p ops).rx.size = p.rx.size ∧
    (runOps p ops).rx.head < p.rx.size ∧
    (runOps p ops).rx.tail < p.rx.size ∧
    (runOps p ops).rx.readable_len + countPopped p ops =
      p.rx.readable_len + countAccepted p ops := by
  induction ops generalizing p with
  | nil =>
    simp [runOps, countAccepted, countPopped]
    exact ⟨hh, ht⟩
  | cons op rest ih =>
    have hrun : runOps p (op :: rest) = runOps (step p op) rest := rfl
    cases op with
    | rxByte c =>
      have hq : (step p (SerialOp.rxByte c)).rx = p.rx.push c := step_rx p c
      have hh' : (step p (SerialOp.rxByte c)).rx.head < (step p (SerialOp.rxByte c)).rx.size := by
        rw [hq, Ring.push_size]
        exact Ring.push_head_lt _ _ hh
      have ht' : (step p (SerialOp.rxByte c)).rx.tail < (step p (SerialOp.rxByte c)).rx.size := by
        rw [hq, Ring.push_size, Ring.push_tail]
        exact ht
      obtain ⟨ihs, ihh, iht, ihlen⟩ := ih (step p (SerialOp.rxByte c)) hh' ht'
      rw [hq, Ring.push_size] at ihs ihh iht
      refine ⟨by rw [hrun, ihs], by rw [hrun]; exact ihh, by rw [hrun]; exact iht, ?_⟩
      rw [hrun]
      show (runOps (step p (SerialOp.rxByte c)) rest).rx.readable_len +
          countPopped p (SerialOp.rxByte c :: rest) =
          p.rx.readable_len + countAccepted p (SerialOp.rxByte c :: rest)
      simp only [countPopped, countAccepted]
      by_cases hacc : (p.rx.head + 1) % p.rx.size ≠ p.rx.tail
      · rw [if_pos hacc]
        have hlenstep : (step p (SerialOp.rxByte c)).rx.readable_len =
            p.rx.readable_len + 1 := by
          rw [hq]
          exact Ring.readable_len_push _ _ hh ht hacc
        omega
      · rw [if_neg hacc]
        push_neg at hacc
        have hlenstep : (step p (SerialOp.rxByte c)).rx.readable_len =
            p.rx.readable_len := by
          rw [hq, Ring.push_full _ _ hacc]
        omega
    | read =>
      have hq : (step p SerialOp.read).rx = (Ring.pop p.rx).2 := read_snd_rx p
      have hh' : (step p SerialOp.read).rx.head < (step p SerialOp.read).rx.size := by
        rw [hq, Ring.pop_size, Ring.pop_head]
        exact hh
      have ht' : (step p SerialOp.read).rx.tail < (step p SerialOp.read).rx.size := by
        rw [hq, Ring.pop_size]
        exact Ring.pop_tail_lt _ ht
      obtain ⟨ihs, ihh, iht, ihlen⟩ := ih (step p SerialOp.read) hh' ht'
      rw [hq, Ring.pop_size] at ihs ihh iht
      refine ⟨by rw [hrun, ihs], by rw [hrun]; exact ihh, by rw [hrun]; exact iht, ?_⟩
      rw [hrun]
      show (runOps (step p SerialOp.read) rest).rx.readable_len +
          countPopped p (SerialOp.read :: rest) =
          p.rx.readable_len + countAccepted p (SerialOp.read :: rest)
      simp only [countPopped, countAccepted]
      by_cases hne : p.rx.tail ≠ p.rx.head
      · rw [if_pos hne]
        have hlenstep : (step p SerialOp.read).rx.readable_len + 1 =
            p.rx.readable_len := by
          rw [hq]
          exact Ring.readable_len_pop _ hh ht (Ne.symm hne)
        omega
      · rw [if_neg hne]
        push_neg at hne
        have hlenstep : (step p SerialOp.read).rx.readable_len =
            p.rx.readable_len := by
          rw [hq, Ring.pop_empty _ hne.symm]
        omega

/-- The ring-buffer length expressed with the single modulo formula: the
two branches of `readable_len` agree with `(head + N - tail) % N`
whenever both indices are in range. -/
theorem Ring.readable_len_eq_mod (r : Ring) (hh : r.head < r.size)
    (ht : r.tail < r.size) :
    r.readable_len = (r.head + r.size - r.tail) % r.size := by
  simp only [Ring.readable_len]
  split_ifs with hlt
  · rw [Nat.mod_eq_of_lt (by omega)]
    omega
  · have hsplit : r.head + r.size - r.tail = (r.head - r.tail) + r.size := by omega
    rw [hsplit, Nat.add_mod_right, Nat.mod_eq_of_lt (by omega)]

/-- A port as the constructor leaves it: both rings empty with capacity
`N`, staging byte zero, the given transport handle. -/
def freshPort (huart : Uart) (N : Nat) : Port :=
  (construct initialTable UartInstance.usart1 0 huart N).2

/-- A concrete idle transport handle used by the witnesses. -/
def witnessUart : Uart :=
  { rxOutstanding := 0, rxBusy := false, locked := false, gStateReady := false,
    rxAttempts := 0, txSent := [] }

/-- C1: for every capacity `N ≥ 2` and every sequence of inbound
operations (receive completions via `handleRxComplete`, pops via
`read`) starting from the empty state, the inbound ring never holds
more than `N − 1` elements, `head` and `tail` stay in `[0, N)`, and
`readable_len()` equals the number of accepted pushes minus the number
of performed pops (stated additively), including across wraparound. -/
theorem c1_capacity_invariant (N : Nat) (hN : 2 ≤ N) (huart : Uart)
    (ops : List SerialOp) :
    (runOps (freshPort huart N) ops).rx.head < N ∧
    (runOps (freshPort huart N) ops).rx.tail < N ∧
    (runOps (freshPort huart N) ops).rx.readable_len ≤ N - 1 ∧
    (runOps (freshPort huart N) ops).rx.readable_len +
        countPopped (freshPort huart N) ops =
      countAccepted (freshPort huart N) ops := by
  have hh : (freshPort huart N).rx.head < (freshPort huart N).rx.size :=
    show 0 < N by omega
  have ht : (freshPort huart N).rx.tail < (freshPort huart N).rx.size :=
    show 0 < N by omega
  obtain ⟨hs, hhd, htl, hlen⟩ := runOps_invariant ops (freshPort huart N) hh ht
  have hsize : (freshPort huart N).rx.size = N := rfl
  rw [hsize] at hs hhd htl
  refine ⟨hhd, htl, ?_, ?_⟩
  · have hle := Ring.readable_len_le (runOps (freshPort huart N) ops).rx
      (by rw [hs]; exact hhd) (by rw [hs]; exact htl)
    rw [hs] at hle
    exact hle
  · have h0 : (freshPort huart N).rx.readable_len = 0 := rfl
    rw [h0] at hlen
    omega

/-- C1 witness: the invariant instantiated at capacity 3 with two
receive completions followed by one read. -/
theorem c1_witness :
    2 ≤ 3 ∧
    ((runOps (freshPort witnessUart 3)
        [SerialOp.rxByte 5, SerialOp.rxByte 6, SerialOp.read]).rx.head < 3 ∧
     (runOps (freshPort witnessUart 3)
        [SerialOp.rxByte 5, SerialOp.rxByte 6, SerialOp.read]).rx.tail < 3 ∧
     (runOps (freshPort witnessUart 3)
        [SerialOp.rxByte 5, SerialOp.rxByte 6, SerialOp.read]).rx.readable_len ≤ 3 - 1 ∧
     (runOps (freshPort witnessUart 3)
        [SerialOp.rxByte 5, SerialOp.rxByte 6, SerialOp.read]).rx.readable_len +
         countPopped (freshPort witnessUart 3)
           [SerialOp.rxByte 5, SerialOp.rxByte 6, SerialOp.read] =
       countAccepted (freshPort witnessUart 3)
         [SerialOp.rxByte 5, SerialOp.rxByte 6, SerialOp.read]) :=
  ⟨by omega,
   c1_capacity_invariant 3 (by omega) witnessUart
     [SerialOp.rxByte 5, SerialOp.rxByte 6, SerialOp.read]⟩

/-- C8 counterexample: the claim asserts that some in-range index
configuration makes the `readable_len()` of the source differ from the
corrected modulo formula `((head − tail + N) mod N)` (written
`(head + N - tail) % N`, which cannot underflow).  No such configuration
exists: the two asymmetric branches both agree with the modulo formula. -/
theorem c8_counterexample :
    ¬ ∃ r : Ring, r.head < r.size ∧ r.tail < r.size ∧
      r.readable_len ≠ (r.head + r.size - r.tail) % r.size := by
  rintro ⟨r, hh, ht, hne⟩
  exact hne (Ring.readable_len_eq_mod r hh ht)

/-- C8 amended: for every index configuration with `head` and `tail` in
`[0, N)`, the `readable_len()` computation of the source equals the
modulo-based formula `((head + N − tail) mod N)`; the asymmetry of the
two branches never produces an incorrect count. -/
theorem c8_len_correct (r : Ring) (hh : r.head < r.size) (ht : r.tail < r.size) :
    r.readable_len = (r.head + r.size - r.tail) % r.size :=
  Ring.readable_len_eq_mod r hh ht

/-- C8 witness: the wraparound branch at `N = 4`, `head = 1`,
`tail = 3`. -/
theorem c8_witness :
    ((1 : Nat) < 4 ∧ (3 : Nat) < 4) ∧
    Ring.readable_len { size := 4, buf := fun _ => 0, head := 1, tail := 3 } =
      (1 + 4 - 3) % 4 :=
  ⟨⟨by omega, by omega⟩,
   c8_len_correct { size := 4, buf := fun _ => 0, head := 1, tail := 3 }
     (by decide) (by decide)⟩

/-- C3: whenever the outbound ring is full — `(head + 1) mod N == tail`
— `write(byte)` returns `-1` and the whole port state (buffer contents,
`head`, `tail`, transport) is unchanged: the excess byte is silently
dropped with no other side effect. -/
theorem c3_overflow_drop (p : Port) (data : Nat)
    (hfull : (p.tx.head + 1) % p.tx.size = p.tx.tail) :
    write p data = (-1, p) := by
  simp only [write]
  rw [if_pos hfull]

/-- A concrete capacity-4 port whose outbound ring already holds three
bytes (`head = 3`, `tail = 0`), i.e. is full. -/
def fullTxPort : Port :=
  { rx := { size := 4, buf := fun _ => 0, head := 0, tail := 0 },
    tx := { size := 4, buf := fun i => i, head := 3, tail := 0 },
    rxTmp := 0,
    uart := witnessUart }

/-- C3 witness: the capacity-4 outbound ring holding 3 bytes rejects a
further `write` and its length is unchanged. -/
theorem c3_witness :
    ((fullTxPort.tx.head + 1) % fullTxPort.tx.size = fullTxPort.tx.tail ∧
     fullTxPort.tx.readable_len = 3) ∧
    write fullTxPort 42 = (-1, fullTxPort) :=
  ⟨⟨by decide, by decide⟩, c3_overflow_drop fullTxPort 42 (by decide)⟩

/-- C4: on every invocation of `handleRxComplete`, if the inbound ring
has free capacity the staged byte `_rxTmp` is stored at `head` and
`head` advances by one; if it is full the byte is dropped and the ring
is unchanged; in both cases at least one new one-unit receive request is
issued to the transport (the receiver is always re-armed). -/
theorem c4_rx_complete (p : Port) :
    ((p.rx.head + 1) % p.rx.size ≠ p.rx.tail →
      (handleRxComplete p).rx =
        { p.rx with buf := Function.update p.rx.buf p.rx.head p.rxTmp,
                    head := (p.rx.head + 1) % p.rx.size }) ∧
    ((p.rx.head + 1) % p.rx.size = p.rx.tail →
      (handleRxComplete p).rx = p.rx) ∧
    p.uart.rxAttempts + 1 ≤ (handleRxComplete p).uart.rxAttempts := by
  have hstep : ∀ u : Uart, u.rxAttempts + 1 ≤ ((HAL_UART_Receive_IT u).2).rxAttempts := by
    intro u
    simp only [HAL_UART_Receive_IT]
    split <;> simp
  refine ⟨?_, ?_, ?_⟩
  · intro hacc
    rw [handleRxComplete_rx]
    simp only [Ring.push]
    rw [if_pos hacc]
  · intro hfull
    rw [handleRxComplete_rx]
    exact Ring.push_full _ _ hfull
  · simp only [handleRxComplete]
    split
    · exact hstep p.uart
    · dsimp only
      refine le_trans (hstep p.uart) ?_
      have heq : ((HAL_UART_Receive_IT p.uart).2).rxAttempts =
          (HAL_UART_AbortReceive (HAL_UNLOCK (HAL_UART_Receive_IT p.uart).2)).rxAttempts := rfl
      rw [heq]
      exact Nat.le_of_succ_le (hstep _)

/-- C4 witness: a receive completion on the fresh capacity-3 port stores
the staged byte, advances `head` to 1, and issues a receive attempt. -/
theorem c4_witness :
    (((freshPort witnessUart 3).rx.head + 1) % (freshPort witnessUart 3).rx.size ≠
        (freshPort witnessUart 3).rx.tail) ∧
    (handleRxComplete (freshPort witnessUart 3)).rx =
      { (freshPort witnessUart 3).rx with
          buf := Function.update (freshPort witnessUart 3).rx.buf
                   (freshPort witnessUart 3).rx.head (freshPort witnessUart 3).rxTmp,
          head := ((freshPort witnessUart 3).rx.head + 1) % (freshPort witnessUart 3).rx.size } ∧
    (freshPort witnessUart 3).uart.rxAttempts + 1 ≤
      (handleRxComplete (freshPort witnessUart 3)).uart.rxAttempts :=
  ⟨by decide,
   (c4_rx_complete (freshPort witnessUart 3)).1 (by decide),
   (c4_rx_complete (freshPort witnessUart 3)).2.2⟩

/-- C5: when the transport reports itself busy (stale busy flag or stale
lock) so that the first re-arm inside `handleRxComplete` is rejected,
the handler clears the stale lock, aborts the stale receive, and retries
the arm exactly once (two attempts total), after which exactly one
inbound receive request is outstanding — not zero and not two. -/
theorem c5_busy_recovery (p : Port)
    (hbusy : p.uart.rxBusy = true ∨ p.uart.locked = true) :
    (handleRxComplete p).uart.rxOutstanding = 1 ∧
    (handleRxComplete p).uart.locked = false ∧
    (handleRxComplete p).uart.rxAttempts = p.uart.rxAttempts + 2 := by
  have hfail : HAL_UART_Receive_IT p.uart =
      (HALStatus.busy, { p.uart with rxAttempts := p.uart.rxAttempts + 1 }) := by
    simp only [HAL_UART_Receive_IT]
    rcases hbusy with h | h <;> simp [h]
  simp only [handleRxComplete, hfail]
  simp [HAL_UNLOCK, HAL_UART_AbortReceive, HAL_UART_Receive_IT]

/-- A port whose transport still (stalely) reports a busy receive state
and a held lock when the completion handler runs. -/
def busyPort : Port :=
  { rx := { size := 4, buf := fun _ => 0, head := 0, tail := 0 },
    tx := { size := 4, buf := fun _ => 0, head := 0, tail := 0 },
    rxTmp := 7,
    uart := { rxOutstanding := 0, rxBusy := true, locked := true,
              gStateReady := false, rxAttempts := 0, txSent := [] } }

/-- C5 witness: the busy-recovery path on a concrete stale-busy port
leaves exactly one receive request outstanding. -/
theorem c5_witness :
    (busyPort.uart.rxBusy = true ∨ busyPort.uart.locked = true) ∧
    ((handleRxComplete busyPort).uart.rxOutstanding = 1 ∧
     (handleRxComplete busyPort).uart.locked = false ∧
     (handleRxComplete busyPort).uart.rxAttempts = busyPort.uart.rxAttempts + 2) :=
  ⟨Or.inl rfl, c5_busy_recovery busyPort (Or.inl rfl)⟩

/-! ## FIFO order -/

/-- Cancellation for ring positions: two offsets below the capacity land
on the same slot only if they are equal. -/
theorem add_mod_inj {n h k l : Nat} (hk : k < n) (hl : l < n)
    (heq : (h + k) % n = (h + l) % n) : k = l := by
  have hmod : k % n = l % n := Nat.ModEq.add_left_cancel' h heq
  rwa [Nat.mod_eq_of_lt hk, Nat.mod_eq_of_lt hl] at hmod

theorem Ring.push_not_full (r : Ring) (c : Nat)
    (hacc : (r.head + 1) % r.size ≠ r.tail) :
    r.push c = { r with buf := Function.update r.buf r.head c,
                        head := (r.head + 1) % r.size } := by
  simp only [Ring.push]
  rw [if_pos hacc]

theorem Ring.pop_nonempty (r : Ring) (hne : r.head ≠ r.tail) :
    r.pop = (some (r.buf r.tail), { r with tail := (r.tail + 1) % r.size }) := by
  simp only [Ring.pop]
  rw [if_neg hne]

/-- Pushing `a`, `b`, `c` into an empty ring (at an arbitrary index, so
wraparound positions are covered) and popping three times returns `a`,
`b`, `c` in that order. -/
theorem push3_pop3 (r : Ring) (a b c : Nat) (hN : 4 ≤ r.size)
    (hh : r.head < r.size) (he : r.tail = r.head) :
    ((((r.push a).push b).push c).pop).1 = some a ∧
    (((((r.push a).push b).push c).pop).2.pop).1 = some b ∧
    ((((((r.push a).push b).push c).pop).2.pop).2.pop).1 = some c := by
  obtain ⟨n, f, hd, tl⟩ := r
  dsimp only at hN hh he ⊢
  rw [he]
  have key : ∀ k l : Nat, k < n → l < n → k ≠ l → (hd + k) % n ≠ (hd + l) % n := by
    intro k l hk hl hkl heq
    exact hkl (add_mod_inj hk hl heq)
  have e0 : (hd + 0) % n = hd := by
    rw [Nat.add_zero]
    exact Nat.mod_eq_of_lt hh
  have st1 : ((hd + 1) % n + 1) % n = (hd + 2) % n := by
    rw [Nat.mod_add_mod]
  have st2 : ((hd + 2) % n + 1) % n = (hd + 3) % n := by
    rw [Nat.mod_add_mod]
  have ne10 : (hd + 1) % n ≠ hd := by
    have := key 1 0 (by omega) (by omega) (by omega)
    rwa [e0] at this
  have ne20 : (hd + 2) % n ≠ hd := by
    have := key 2 0 (by omega) (by omega) (by omega)
    rwa [e0] at this
  have ne30 : (hd + 3) % n ≠ hd := by
    have := key 3 0 (by omega) (by omega) (by omega)
    rwa [e0] at this
  have ne12 : (hd + 1) % n ≠ (hd + 2) % n := key 1 2 (by omega) (by omega) (by omega)
  have ne31 : (hd + 3) % n ≠ (hd + 1) % n := key 3 1 (by omega) (by omega) (by omega)
  have ne32 : (hd + 3) % n ≠ (hd + 2) % n := key 3 2 (by omega) (by omega) (by omega)
  have hp1 : Ring.push ⟨n, f, hd, hd⟩ a =
      ⟨n, Function.update f hd a, (hd + 1) % n, hd⟩ :=
    Ring.push_not_full _ _ ne10
  have hp2 : Ring.push ⟨n, Function.update f hd a, (hd + 1) % n, hd⟩ b =
      ⟨n, Function.update (Function.update f hd a) ((hd + 1) % n) b, (hd + 2) % n, hd⟩ := by
    have := Ring.push_not_full ⟨n, Function.update f hd a, (hd + 1) % n, hd⟩ b
      (by dsimp only; rw [st1]; exact ne20)
    dsimp only at this
    rwa [st1] at this
  have hp3 : Ring.push ⟨n, Function.update (Function.update f hd a) ((hd + 1) % n) b,
        (hd + 2) % n, hd⟩ c =
      ⟨n, Function.update (Function.update (Function.update f hd a) ((hd + 1) % n) b)
        ((hd + 2) % n) c, (hd + 3) % n, hd⟩ := by
    have := Ring.push_not_full ⟨n, Function.update (Function.update f hd a) ((hd + 1) % n) b,
        (hd + 2) % n, hd⟩ c (by dsimp only; rw [st2]; exact ne30)
    dsimp only at this
    rwa [st2] at this
  set f3 := Function.update (Function.update (Function.update f hd a) ((hd + 1) % n) b)
    ((hd + 2) % n) c with hf3
  have v1 : f3 hd = a := by
    rw [hf3, Function.update_noteq (Ne.symm ne20), Function.update_noteq (Ne.symm ne10),
      Function.update_same]
  have v2 : f3 ((hd + 1) % n) = b := by
    rw [hf3, Function.update_noteq ne12, Function.update_same]
  have v3 : f3 ((hd + 2) % n) = c := by
    rw [hf3, Function.update_same]
  have hq1 : Ring.pop ⟨n, f3, (hd + 3) % n, hd⟩ =
      (some (f3 hd), ⟨n, f3, (hd + 3) % n, (hd + 1) % n⟩) :=
    Ring.pop_nonempty _ ne30
  have hq2 : Ring.pop ⟨n, f3, (hd + 3) % n, (hd + 1) % n⟩ =
      (some (f3 ((hd + 1) % n)), ⟨n, f3, (hd + 3) % n, (hd + 2) % n⟩) := by
    have := Ring.pop_nonempty ⟨n, f3, (hd + 3) % n, (hd + 1) % n⟩ ne31
    dsimp only at this
    rwa [st1] at this
  have hq3 : Ring.pop ⟨n, f3, (hd + 3) % n, (hd + 2) % n⟩ =
      (some (f3 ((hd + 2) % n)), ⟨n, f3, (hd + 3) % n, (hd + 3) % n⟩) := by
    have := Ring.pop_nonempty ⟨n, f3, (hd + 3) % n, (hd + 2) % n⟩ ne32
    dsimp only at this
    rwa [st2] at this
  rw [hp1, hp2, hp3, hq1]
  refine ⟨by rw [v1], ?_, ?_⟩
  · dsimp only
    rw [hq2, v2]
  · dsimp only
    rw [hq2]
    dsimp only
    rw [hq3, v3]

theorem write_full (p : Port) (d : Nat)
    (hfull : (p.tx.head + 1) % p.tx.size = p.tx.tail) :
    write p d = (-1, p) := by
  simp only [write]
  rw [if_pos hfull]

/-- The outbound ring rejects a `write` exactly when it already holds
`size − 1` bytes. -/
theorem Ring.full_iff_len (r : Ring) (hh : r.head < r.size) (ht : r.tail < r.size) :
    (r.head + 1) % r.size = r.tail ↔ r.readable_len = r.size - 1 := by
  rw [mod_succ_eq hh]
  simp only [Ring.readable_len]
  split_ifs <;> omega

/-- With the transport not idle, a single-byte `write` is exactly a
ring push (accepted iff the ring is not full) and touches nothing
else. -/
theorem write_not_ready (p : Port) (d : Nat) (hg : p.uart.gStateReady = false)
    (hacc : (p.tx.head + 1) % p.tx.size ≠ p.tx.tail) :
    write p d = (1, { p with tx := p.tx.push d }) := by
  simp only [write]
  rw [if_neg hacc]
  rw [hg, if_neg Bool.false_ne_true, Ring.push_not_full _ _ hacc]

/-- Distinct offsets below the capacity land on distinct slots. -/
theorem add_mod_ne {n hd k l : Nat} (hk : k < n) (hl : l < n) (hkl : k ≠ l) :
    (hd + k) % n ≠ (hd + l) % n :=
  fun heq => hkl (add_mod_inj hk hl heq)

/-- A nonzero offset below the capacity moves off the starting slot. -/
theorem add_mod_ne_self {n hd k : Nat} (hh : hd < n) (hk : k < n) (hk0 : k ≠ 0) :
    (hd + k) % n ≠ hd := by
  intro heq
  apply hk0
  apply add_mod_inj hk (show 0 < n by omega)
  rw [Nat.add_zero, Nat.mod_eq_of_lt hh]
  exact heq

/-- A transmit completion on a non-empty outbound ring dequeues the
byte at `tail` and hands it to the one-unit transmit call. -/
theorem handleTxComplete_nonempty (p : Port) (hne : p.tx.tail ≠ p.tx.head) :
    handleTxComplete p =
      { p with tx := { p.tx with tail := (p.tx.tail + 1) % p.tx.size },
               uart := HAL_UART_Transmit_IT p.uart (p.tx.buf p.tx.tail) } := by
  simp only [handleTxComplete]
  rw [if_pos hne]

/-- A transmit completion on an empty outbound ring does nothing. -/
theorem handleTxComplete_empty (p : Port) (he : p.tx.tail = p.tx.head) :
    handleTxComplete p = p := by
  simp only [handleTxComplete]
  rw [if_neg (not_not_intro he)]

/-- Writing `a`, `b`, `c` into an empty outbound ring (at any index, so
wraparound is covered) and then letting three transmit completions run
hands exactly `a`, `b`, `c` to the transport, in that order — whether
the transport was idle (the first `write` then kicks off the transmit
of `a` synchronously and the third completion finds the ring drained)
or busy (the three completions perform the three dequeues). -/
theorem write3_deq3 (p : Port) (a b c : Nat) (hN : 4 ≤ p.tx.size)
    (hh : p.tx.head < p.tx.size) (he : p.tx.tail = p.tx.head) :
    (handleTxComplete (handleTxComplete (handleTxComplete
       (write (write (write p a).2 b).2 c).2))).uart.txSent
      = p.uart.txSent ++ [a, b, c] := by
  obtain ⟨rx, tx, tmp, u⟩ := p
  obtain ⟨n, f, hd, tl⟩ := tx
  dsimp only at hN hh he ⊢
  rw [he]
  have st1 : ((hd + 1) % n + 1) % n = (hd + 2) % n := by rw [Nat.mod_add_mod]
  have st2 : ((hd + 2) % n + 1) % n = (hd + 3) % n := by rw [Nat.mod_add_mod]
  have ne10 : (hd + 1) % n ≠ hd := add_mod_ne_self hh (by omega) (by omega)
  have ne20 : (hd + 2) % n ≠ hd := add_mod_ne_self hh (by omega) (by omega)
  have ne30 : (hd + 3) % n ≠ hd := add_mod_ne_self hh (by omega) (by omega)
  have ne12 : (hd + 1) % n ≠ (hd + 2) % n := add_mod_ne (by omega) (by omega) (by omega)
  have ne31 : (hd + 3) % n ≠ (hd + 1) % n := add_mod_ne (by omega) (by omega) (by omega)
  have ne32 : (hd + 3) % n ≠ (hd + 2) % n := add_mod_ne (by omega) (by omega) (by omega)
  set f3 := Function.update (Function.update (Function.update f hd a) ((hd + 1) % n) b)
    ((hd + 2) % n) c with hf3
  have v1 : f3 hd = a := by
    rw [hf3, Function.update_noteq (Ne.symm ne20), Function.update_noteq (Ne.symm ne10),
      Function.update_same]
  have v2 : f3 ((hd + 1) % n) = b := by
    rw [hf3, Function.update_noteq ne12, Function.update_same]
  have v3 : f3 ((hd + 2) % n) = c := by
    rw [hf3, Function.update_same]
  cases hgb : u.gStateReady with
  | false =>
    have w1 : write (Port.mk rx (Ring.mk n f hd hd) tmp u) a =
        (1, Port.mk rx (Ring.mk n (Function.update f hd a) ((hd + 1) % n) hd) tmp u) := by
      have hw := write_not_ready (Port.mk rx (Ring.mk n f hd hd) tmp u) a hgb ne10
      rw [hw, Ring.push_not_full _ _ ne10]
    have w2 : write (Port.mk rx (Ring.mk n (Function.update f hd a) ((hd + 1) % n) hd)
          tmp u) b =
        (1, Port.mk rx (Ring.mk n (Function.update (Function.update f hd a) ((hd + 1) % n) b)
          ((hd + 2) % n) hd) tmp u) := by
      have hacc : ((hd + 1) % n + 1) % n ≠ hd := by rw [st1]; exact ne20
      have hw := write_not_ready (Port.mk rx (Ring.mk n (Function.update f hd a)
        ((hd + 1) % n) hd) tmp u) b hgb hacc
      rw [hw, Ring.push_not_full _ _ hacc, st1]
    have w3 : write (Port.mk rx (Ring.mk n (Function.update (Function.update f hd a)
          ((hd + 1) % n) b) ((hd + 2) % n) hd) tmp u) c =
        (1, Port.mk rx (Ring.mk n f3 ((hd + 3) % n) hd) tmp u) := by
      have hacc : ((hd + 2) % n + 1) % n ≠ hd := by rw [st2]; exact ne30
      have hw := write_not_ready (Port.mk rx (Ring.mk n (Function.update
        (Function.update f hd a) ((hd + 1) % n) b) ((hd + 2) % n) hd) tmp u) c hgb hacc
      rw [hw, Ring.push_not_full _ _ hacc, st2, hf3]
    have d1 : handleTxComplete (Port.mk rx (Ring.mk n f3 ((hd + 3) % n) hd) tmp u) =
        Port.mk rx (Ring.mk n f3 ((hd + 3) % n) ((hd + 1) % n)) tmp
          { u with txSent := u.txSent ++ [a], gStateReady := false } := by
      have h := handleTxComplete_nonempty (Port.mk rx (Ring.mk n f3 ((hd + 3) % n) hd)
        tmp u) (fun hcon => ne30 hcon.symm)
      dsimp only at h
      rw [v1] at h
      exact h
    have d2 : handleTxComplete (Port.mk rx (Ring.mk n f3 ((hd + 3) % n) ((hd + 1) % n)) tmp
          { u with txSent := u.txSent ++ [a], gStateReady := false }) =
        Port.mk rx (Ring.mk n f3 ((hd + 3) % n) ((hd + 2) % n)) tmp
          { u with txSent := (u.txSent ++ [a]) ++ [b], gStateReady := false } := by
      have h := handleTxComplete_nonempty (Port.mk rx (Ring.mk n f3 ((hd + 3) % n)
        ((hd + 1) % n)) tmp { u with txSent := u.txSent ++ [a], gStateReady := false })
        (fun hcon => ne31 hcon.symm)
      dsimp only at h
      rw [v2, st1] at h
      exact h
    have d3 : handleTxComplete (Port.mk rx (Ring.mk n f3 ((hd + 3) % n) ((hd + 2) % n)) tmp
          { u with txSent := (u.txSent ++ [a]) ++ [b], gStateReady := false }) =
        Port.mk rx (Ring.mk n f3 ((hd + 3) % n) ((hd + 3) % n)) tmp
          { u with txSent := ((u.txSent ++ [a]) ++ [b]) ++ [c], gStateReady := false } := by
      have h := handleTxComplete_nonempty (Port.mk rx (Ring.mk n f3 ((hd + 3) % n)
        ((hd + 2) % n)) tmp { u with txSent := (u.txSent ++ [a]) ++ [b], gStateReady := false }) (fun hcon => ne32 hcon.symm)
      dsimp only at h
      rw [v3, st2] at h
      exact h
    rw [w1]
    dsimp only
    rw [w2]
    dsimp only
    rw [w3]
    dsimp only
    rw [d1, d2, d3]
    dsimp only
    simp [List.append_assoc]
  | true =>
    have w1 : write (Port.mk rx (Ring.mk n f hd hd) tmp u) a =
        (1, Port.mk rx (Ring.mk n (Function.update f hd a) ((hd + 1) % n) ((hd + 1) % n))
          tmp { u with txSent := u.txSent ++ [a], gStateReady := false }) := by
      simp only [write]
      rw [if_neg ne10]
      rw [hgb]
      simp only [if_true]
      simp only [startTxInterrupt]
      rw [if_neg (fun hcon => ne10 hcon.symm)]
      rw [Function.update_same]
      rfl
    have w2 : write (Port.mk rx (Ring.mk n (Function.update f hd a) ((hd + 1) % n)
          ((hd + 1) % n)) tmp { u with txSent := u.txSent ++ [a], gStateReady := false }) b =
        (1, Port.mk rx (Ring.mk n (Function.update (Function.update f hd a) ((hd + 1) % n) b)
          ((hd + 2) % n) ((hd + 1) % n)) tmp
          { u with txSent := u.txSent ++ [a], gStateReady := false }) := by
      have hacc : ((hd + 1) % n + 1) % n ≠ (hd + 1) % n := by rw [st1]; exact Ne.symm ne12
      have hw := write_not_ready (Port.mk rx (Ring.mk n (Function.update f hd a)
        ((hd + 1) % n) ((hd + 1) % n)) tmp { u with txSent := u.txSent ++ [a], gStateReady := false }) b rfl hacc
      rw [hw, Ring.push_not_full _ _ hacc, st1]
    have w3 : write (Port.mk rx (Ring.mk n (Function.update (Function.update f hd a)
          ((hd + 1) % n) b) ((hd + 2) % n) ((hd + 1) % n)) tmp
          { u with txSent := u.txSent ++ [a], gStateReady := false }) c =
        (1, Port.mk rx (Ring.mk n f3 ((hd + 3) % n) ((hd + 1) % n)) tmp
          { u with txSent := u.txSent ++ [a], gStateReady := false }) := by
      have hacc : ((hd + 2) % n + 1) % n ≠ (hd + 1) % n := by rw [st2]; exact ne31
      have hw := write_not_ready (Port.mk rx (Ring.mk n (Function.update
        (Function.update f hd a) ((hd + 1) % n) b) ((hd + 2) % n) ((hd + 1) % n)) tmp
        { u with txSent := u.txSent ++ [a], gStateReady := false }) c rfl hacc
      rw [hw, Ring.push_not_full _ _ hacc, st2, hf3]
    have d1 : handleTxComplete (Port.mk rx (Ring.mk n f3 ((hd + 3) % n) ((hd + 1) % n)) tmp
          { u with txSent := u.txSent ++ [a], gStateReady := false }) =
        Port.mk rx (Ring.mk n f3 ((hd + 3) % n) ((hd + 2) % n)) tmp
          { u with txSent := (u.txSent ++ [a]) ++ [b], gStateReady := false } := by
      have h := handleTxComplete_nonempty (Port.mk rx (Ring.mk n f3 ((hd + 3) % n)
        ((hd + 1) % n)) tmp { u with txSent := u.txSent ++ [a], gStateReady := false })
        (fun hcon => ne31 hcon.symm)
      dsimp only at h
      rw [v2, st1] at h
      exact h
    have d2 : handleTxComplete (Port.mk rx (Ring.mk n f3 ((hd + 3) % n) ((hd + 2) % n)) tmp
          { u with txSent := (u.txSent ++ [a]) ++ [b], gStateReady := false }) =
        Port.mk rx (Ring.mk n f3 ((hd + 3) % n) ((hd + 3) % n)) tmp
          { u with txSent := ((u.txSent ++ [a]) ++ [b]) ++ [c], gStateReady := false } := by
      have h := handleTxComplete_nonempty (Port.mk rx (Ring.mk n f3 ((hd + 3) % n)
        ((hd + 2) % n)) tmp { u with txSent := (u.txSent ++ [a]) ++ [b], gStateReady := false }) (fun hcon => ne32 hcon.symm)
      dsimp only at h
      rw [v3, st2] at h
      exact h
    have d3 : handleTxComplete (Port.mk rx (Ring.mk n f3 ((hd + 3) % n) ((hd + 3) % n)) tmp
          { u with txSent := ((u.txSent ++ [a]) ++ [b]) ++ [c], gStateReady := false }) =
        Port.mk rx (Ring.mk n f3 ((hd + 3) % n) ((hd + 3) % n)) tmp
          { u with txSent := ((u.txSent ++ [a]) ++ [b]) ++ [c], gStateReady := false } :=
      handleTxComplete_empty _ rfl
    rw [w1]
    dsimp only
    rw [w2]
    dsimp only
    rw [w3]
    dsimp only
    rw [d1, d2, d3]
    dsimp only
    simp [List.append_assoc]

/-- A port whose inbound ring already holds one byte (the value 9 at
`tail = 0`, with `head = 1`) and has plenty of free capacity
(capacity 8, so 6 of the 7 usable slots are free). -/
def preloadedPort : Port :=
  { rx := { size := 8, buf := fun _ => 9, head := 1, tail := 0 },
    tx := { size := 8, buf := fun _ => 0, head := 0, tail := 0 },
    rxTmp := 0,
    uart := witnessUart }

/-- The preloaded port after receiving the bytes 1, 2, 3 through
`handleRxComplete`. -/
def preloadedPort3 : Port :=
  step (step (step preloadedPort (SerialOp.rxByte 1)) (SerialOp.rxByte 2))
    (SerialOp.rxByte 3)

/-- C2 counterexample: the claim quantifies over every state with
enough free capacity, but on a state that already holds a byte the
three pops return that older byte first.  Concretely: a capacity-8
inbound ring holding one byte (9), i.e. with 6 free slots, receives
1, 2, 3; the next three reads yield 9, 1, 2 — not 1, 2, 3. -/
theorem c2_counterexample :
    (preloadedPort.rx.readable_len = 1 ∧
     preloadedPort.rx.size - 1 - preloadedPort.rx.readable_len = 6) ∧
    (Port.read preloadedPort3).1 = some 9 ∧
    (Port.read (Port.read preloadedPort3).2).1 = some 1 ∧
    (Port.read (Port.read (Port.read preloadedPort3).2).2).1 = some 2 ∧
    ¬ ((Port.read preloadedPort3).1 = some 1 ∧
       (Port.read (Port.read preloadedPort3).2).1 = some 2 ∧
       (Port.read (Port.read (Port.read preloadedPort3).2).2).1 = some 3) := by
  refine ⟨⟨rfl, rfl⟩, rfl, rfl, rfl, ?_⟩
  intro hcon
  exact absurd hcon.1 (by decide)

/-- C2 amended: for every ring buffer of either direction whose buffer
is *empty* (`tail == head`, at any index, so wraparound is covered;
such a state trivially has enough free capacity when the capacity is at
least 4), bytes are delivered in FIFO order.  Inbound: pushing `a`,
`b`, `c` via `handleRxComplete` stagings and then popping three times
via `read` yields `a`, `b`, `c` in that order.  Outbound: pushing `a`,
`b`, `c` via `write` and letting three transmit completions run hands
exactly `a`, `b`, `c` to the transport in that order (when the
transport was idle, the first of the three transmit-side dequeues is
the synchronous kick-off inside `write` itself and the third completion
finds the ring drained).  Pops observe pushes in the order they were
committed. -/
theorem c2_fifo (p : Port) (a b c : Nat) :
    (4 ≤ p.rx.size → p.rx.head < p.rx.size → p.rx.tail = p.rx.head →
      (Port.read (step (step (step p (SerialOp.rxByte a)) (SerialOp.rxByte b))
         (SerialOp.rxByte c))).1 = some a ∧
      (Port.read (Port.read (step (step (step p (SerialOp.rxByte a)) (SerialOp.rxByte b))
         (SerialOp.rxByte c))).2).1 = some b ∧
      (Port.read (Port.read (Port.read (step (step (step p (SerialOp.rxByte a))
         (SerialOp.rxByte b)) (SerialOp.rxByte c))).2).2).1 = some c) ∧
    (4 ≤ p.tx.size → p.tx.head < p.tx.size → p.tx.tail = p.tx.head →
      (handleTxComplete (handleTxComplete (handleTxComplete
         (write (write (write p a).2 b).2 c).2))).uart.txSent
        = p.uart.txSent ++ [a, b, c]) := by
  constructor
  · intro hN hh he
    obtain ⟨v1, v2, v3⟩ := push3_pop3 p.rx a b c hN hh he
    have h3 : (step (step (step p (SerialOp.rxByte a)) (SerialOp.rxByte b))
        (SerialOp.rxByte c)).rx = ((p.rx.push a).push b).push c := by
      rw [step_rx, step_rx, step_rx]
    refine ⟨?_, ?_, ?_⟩
    · rw [read_fst, h3]
      exact v1
    · rw [read_fst, read_snd_rx, h3]
      exact v2
    · rw [read_fst, read_snd_rx, read_snd_rx, h3]
      exact v3
  · intro hN hh he
    exact write3_deq3 p a b c hN hh he

/-- An empty capacity-4 port whose inbound indices sit at the last slot
(`head = tail = 3`), so three pushes wrap around the end of storage. -/
def wrapPort : Port :=
  { rx := { size := 4, buf := fun _ => 0, head := 3, tail := 3 },
    tx := { size := 4, buf := fun _ => 0, head := 0, tail := 0 },
    rxTmp := 0,
    uart := witnessUart }

/-- C2 witness: the FIFO law at capacity 4 with the empty inbound
position at the wraparound index 3, pushing and reading back 10, 20,
30; and the outbound law on the same port, writing 10, 20, 30 and
observing the transmit requests carry 10, 20, 30 in that order. -/
theorem c2_witness :
    (4 ≤ wrapPort.rx.size ∧ wrapPort.rx.head < wrapPort.rx.size ∧
     wrapPort.rx.tail = wrapPort.rx.head ∧
     4 ≤ wrapPort.tx.size ∧ wrapPort.tx.head < wrapPort.tx.size ∧
     wrapPort.tx.tail = wrapPort.tx.head) ∧
    ((Port.read (step (step (step wrapPort (SerialOp.rxByte 10)) (SerialOp.rxByte 20))
       (SerialOp.rxByte 30))).1 = some 10 ∧
     (Port.read (Port.read (step (step (step wrapPort (SerialOp.rxByte 10))
       (SerialOp.rxByte 20)) (SerialOp.rxByte 30))).2).1 = some 20 ∧
     (Port.read (Port.read (Port.read (step (step (step wrapPort (SerialOp.rxByte 10))
       (SerialOp.rxByte 20)) (SerialOp.rxByte 30))).2).2).1 = some 30) ∧
    (handleTxComplete (handleTxComplete (handleTxComplete
       (write (write (write wrapPort 10).2 20).2 30).2))).uart.txSent
      = wrapPort.uart.txSent ++ [10, 20, 30] :=
  ⟨⟨by decide, by decide, rfl, by decide, by decide, rfl⟩,
   (c2_fifo wrapPort 10 20 30).1 (by decide) (by decide) (by decide),
   (c2_fifo wrapPort 10 20 30).2 (by decide) (by decide) (by decide)⟩

/-! ## Transmit chaining -/

/-- C6: every one-unit transmit request — whether issued by
`handleTxComplete` chaining after a completion, by `_startTxInterrupt`,
or by the synchronous kick-off inside `write` on an idle transport —
carries the byte dequeued from the oldest outbound slot (`tail`), and
`tail` advances by one; no transmit request is issued when the outbound
ring is empty, with `handleTxComplete` (and `_startTxInterrupt`) taking
no action at all; `write` issues no transmit when the transport is not
idle. -/
theorem c6_tx_chain (p : Port) (d : Nat) :
    (p.tx.tail = p.tx.head → handleTxComplete p = p ∧ startTxInterrupt p = p) ∧
    (p.tx.tail ≠ p.tx.head →
      (handleTxComplete p).uart.txSent = p.uart.txSent ++ [p.tx.buf p.tx.tail] ∧
      (handleTxComplete p).tx.tail = (p.tx.tail + 1) % p.tx.size ∧
      (handleTxComplete p).tx.head = p.tx.head ∧
      (handleTxComplete p).tx.buf = p.tx.buf ∧
      startTxInterrupt p = handleTxComplete p) ∧
    ((p.tx.head + 1) % p.tx.size ≠ p.tx.tail → p.uart.gStateReady = true →
      (write p d).2.uart.txSent =
        p.uart.txSent ++ [Function.update p.tx.buf p.tx.head d p.tx.tail] ∧
      (write p d).2.tx.tail = (p.tx.tail + 1) % p.tx.size) ∧
    (p.uart.gStateReady = false → (write p d).2.uart.txSent = p.uart.txSent) := by
  refine ⟨?_, ?_, ?_, ?_⟩
  · intro he
    constructor
    · simp only [handleTxComplete]
      rw [if_neg (not_not_intro he)]
    · simp only [startTxInterrupt]
      rw [if_pos he]
  · intro hne
    have hh1 : handleTxComplete p =
        { p with tx := { p.tx with tail := (p.tx.tail + 1) % p.tx.size },
                 uart := HAL_UART_Transmit_IT p.uart (p.tx.buf p.tx.tail) } := by
      simp only [handleTxComplete]
      rw [if_pos hne]
    have hs1 : startTxInterrupt p =
        { p with tx := { p.tx with tail := (p.tx.tail + 1) % p.tx.size },
                 uart := HAL_UART_Transmit_IT p.uart (p.tx.buf p.tx.tail) } := by
      simp only [startTxInterrupt]
      rw [if_neg hne]
    rw [hh1, hs1]
    exact ⟨rfl, rfl, rfl, rfl, rfl⟩
  · intro hfull hg
    simp only [write]
    rw [if_neg hfull]
    dsimp only
    rw [hg]
    simp only [if_true]
    have hne2 : ¬ (p.tx.tail = (p.tx.head + 1) % p.tx.size) := fun hcon =>
      hfull hcon.symm
    simp only [startTxInterrupt]
    rw [if_neg hne2]
    exact ⟨rfl, rfl⟩
  · intro hg
    simp only [write]
    split
    · rfl
    · dsimp only
      rw [hg]
      rw [if_neg Bool.false_ne_true]

/-- A port with a single byte (55) queued in the outbound ring. -/
def oneTxPort : Port :=
  { rx := { size := 4, buf := fun _ => 0, head := 0, tail := 0 },
    tx := { size := 4, buf := Function.update (fun _ => 0) 0 55, head := 1, tail := 0 },
    rxTmp := 0,
    uart := witnessUart }

/-- C6 witness: a transmit completion on a port with one queued byte
issues exactly the transmit request for that byte and advances `tail`;
and a `write` on a non-idle transport issues no transmit request. -/
theorem c6_witness :
    (oneTxPort.tx.tail ≠ oneTxPort.tx.head ∧ oneTxPort.uart.gStateReady = false) ∧
    ((handleTxComplete oneTxPort).uart.txSent =
       oneTxPort.uart.txSent ++ [oneTxPort.tx.buf oneTxPort.tx.tail] ∧
     (handleTxComplete oneTxPort).tx.tail = (oneTxPort.tx.tail + 1) % oneTxPort.tx.size) ∧
    (write oneTxPort 9).2.uart.txSent = oneTxPort.uart.txSent :=
  ⟨⟨by decide, rfl⟩,
   ⟨((c6_tx_chain oneTxPort 9).2.1 (by decide)).1,
    ((c6_tx_chain oneTxPort 9).2.1 (by decide)).2.1⟩,
   (c6_tx_chain oneTxPort 9).2.2.2 rfl⟩

/-! ## Partial writes -/

/-- Unfolding `writeMany` over a successful head write. -/
theorem writeMany_cons_succ (p q : Port) (d : Nat) (rest : List Nat)
    (hw : write p d = (1, q)) :
    writeMany p (d :: rest) = ((writeMany q rest).1 + 1, (writeMany q rest).2) := by
  simp only [writeMany, hw]
  rw [if_pos trivial]

/-- Unfolding `writeMany` over a failed head write. -/
theorem writeMany_cons_fail (p q : Port) (d : Nat) (rest : List Nat)
    (hw : write p d = (-1, q)) :
    writeMany p (d :: rest) = (0, q) := by
  simp only [writeMany, hw]
  rw [if_neg (by decide : ¬ ((-1 : Int) = 1))]

/-- C7: with the transport not draining concurrently (its transmit
state not idle, so `write` never dequeues), the multi-byte
`write(data, len)` accepts exactly `min(len, k)` bytes where `k` is the
number of free outbound slots, returns that count, and the resulting
outbound ring is the one obtained by pushing exactly the first
`min(len, k)` input bytes in order; nothing else of the port changes. -/
theorem c7_bounded_write (data : List Nat) (p : Port)
    (hh : p.tx.head < p.tx.size) (ht : p.tx.tail < p.tx.size)
    (hg : p.uart.gStateReady = false) :
    (writeMany p data).1 =
      min data.length (p.tx.size - 1 - p.tx.readable_len) ∧
    (writeMany p data).2 =
      { p with tx := (data.take (p.tx.size - 1 - p.tx.readable_len)).foldl
                       Ring.push p.tx } := by
  induction data generalizing p with
  | nil =>
    constructor
    · simp [writeMany]
    · simp [writeMany]
  | cons d rest ih =>
    by_cases hfull : (p.tx.head + 1) % p.tx.size = p.tx.tail
    · have hk : p.tx.size - 1 - p.tx.readable_len = 0 := by
        have := (Ring.full_iff_len p.tx hh ht).mp hfull
        omega
      have hw : writeMany p (d :: rest) = (0, p) :=
        writeMany_cons_fail p p d rest (write_full p d hfull)
      rw [hk, hw]
      constructor
      · simp
      · simp
    · have hw : writeMany p (d :: rest) =
          ((writeMany { p with tx := p.tx.push d } rest).1 + 1,
           (writeMany { p with tx := p.tx.push d } rest).2) :=
        writeMany_cons_succ p _ d rest (write_not_ready p d hg hfull)
      have hsz : (p.tx.push d).size = p.tx.size := Ring.push_size _ _
      have hlen : (p.tx.push d).readable_len = p.tx.readable_len + 1 :=
        Ring.readable_len_push _ _ hh ht hfull
      have hlt : p.tx.readable_len < p.tx.size - 1 := by
        have hle := Ring.readable_len_le p.tx hh ht
        have hne : p.tx.readable_len ≠ p.tx.size - 1 := fun hcon =>
          hfull ((Ring.full_iff_len p.tx hh ht).mpr hcon)
        omega
      obtain ⟨k', hk'⟩ : ∃ k', p.tx.size - 1 - p.tx.readable_len = k' + 1 :=
        ⟨p.tx.size - 2 - p.tx.readable_len, by omega⟩
      have ih' := ih { p with tx := p.tx.push d }
        (by dsimp only; rw [hsz]; exact Ring.push_head_lt _ _ hh)
        (by dsimp only; rw [hsz, Ring.push_tail]; exact ht)
        hg
      dsimp only at ih'
      rw [hsz, hlen] at ih'
      have hkq : p.tx.size - 1 - (p.tx.readable_len + 1) = k' := by omega
      rw [hkq] at ih'
      rw [hk', hw]
      constructor
      · dsimp only
        rw [ih'.1]
        simp only [List.length_cons]
        omega
      · dsimp only
        rw [ih'.2]
        rw [List.take_succ_cons, List.foldl_cons]

/-- An idle-buffered port: capacity 5, empty outbound ring, transport
transmit state not idle. -/
def busyTxPort : Port :=
  { rx := { size := 5, buf := fun _ => 0, head := 0, tail := 0 },
    tx := { size := 5, buf := fun _ => 0, head := 0, tail := 0 },
    rxTmp := 0,
    uart := witnessUart }

/-- C7 witness: writing 10 bytes into 4 free outbound slots returns 4
and enqueues exactly the first 4 bytes. -/
theorem c7_witness :
    (busyTxPort.tx.head < busyTxPort.tx.size ∧
     busyTxPort.tx.tail < busyTxPort.tx.size ∧
     busyTxPort.uart.gStateReady = false) ∧
    ((writeMany busyTxPort [10, 11, 12, 13, 14, 15, 16, 17, 18, 19]).1 =
       min ([10, 11, 12, 13, 14, 15, 16, 17, 18, 19] : List Nat).length
         (busyTxPort.tx.size - 1 - busyTxPort.tx.readable_len) ∧
     (writeMany busyTxPort [10, 11, 12, 13, 14, 15, 16, 17, 18, 19]).2 =
       { busyTxPort with
           tx := (([10, 11, 12, 13, 14, 15, 16, 17, 18, 19] : List Nat).take
                    (busyTxPort.tx.size - 1 - busyTxPort.tx.readable_len)).foldl
                   Ring.push busyTxPort.tx }) :=
  ⟨⟨by decide, by decide, rfl⟩,
   c7_bounded_write [10, 11, 12, 13, 14, 15, 16, 17, 18, 19] busyTxPort
     (by decide) (by decide) rfl⟩

/-! ## Instance registry -/

/-- Registering under a different identity does not change what a
lookup of `inst` sees (registrations for `other` identities fall
through the chain entirely). -/
theorem fromHandle_register_ne (tbl : RegistryTable) (inst r : UartInstance)
    (q : Nat) (hne : r ≠ inst) :
    fromHandle (registerInstance tbl r q) inst = fromHandle tbl inst := by
  cases inst <;> cases r <;>
    simp_all [registerInstance, fromHandle, instanceIndex, Function.update_apply]

/-- A sequence of registrations, none for `inst`, does not change what
a lookup of `inst` sees. -/
theorem fromHandle_registerAll_ne (regs : List (UartInstance × Nat))
    (tbl : RegistryTable) (inst : UartInstance)
    (hregs : ∀ r ∈ regs, r.1 ≠ inst) :
    fromHandle (registerAll tbl regs) inst = fromHandle tbl inst := by
  induction regs generalizing tbl with
  | nil => rfl
  | cons r rest ih =>
    have hstep : registerAll tbl (r :: rest) =
        registerAll (registerInstance tbl r.1 r.2) rest := rfl
    rw [hstep, ih _ (fun x hx => hregs x (List.mem_cons_of_mem _ hx))]
    exact fromHandle_register_ne tbl inst r.1 r.2 (hregs r (List.mem_cons_self _ _))

/-- Registering one of the six supported identities makes the
corresponding lookup return exactly that port (overwriting whatever was
there). -/
theorem fromHandle_register_self (tbl : RegistryTable) (inst : UartInstance)
    (port : Nat) (hinst : inst ≠ UartInstance.other) :
    fromHandle (registerInstance tbl inst port) inst = some port := by
  cases inst <;>
    simp_all [registerInstance, fromHandle, instanceIndex, Function.update_apply]

/-- C9: for a handle whose `Instance` is one of the six supported
peripherals, after `registerInstance(h, p)` — regardless of what was
registered before, so re-registration silently overwrites and the
latest registration wins — and any later registrations for other
identities, `fromHandle(h)` returns `p`; and an identity that was never
registered looks up as `nullptr` (`none`). -/
theorem c9_registry_lookup (tbl : RegistryTable) (inst : UartInstance)
    (port : Nat) (regs : List (UartInstance × Nat))
    (hinst : inst ≠ UartInstance.other)
    (hregs : ∀ r ∈ regs, r.1 ≠ inst) :
    fromHandle (registerAll (registerInstance tbl inst port) regs) inst = some port ∧
    (∀ regs2 : List (UartInstance × Nat), (∀ r ∈ regs2, r.1 ≠ inst) →
      fromHandle (registerAll initialTable regs2) inst = none) := by
  constructor
  · rw [fromHandle_registerAll_ne regs _ inst hregs]
    exact fromHandle_register_self tbl inst port hinst
  · intro regs2 hregs2
    rw [fromHandle_registerAll_ne regs2 _ inst hregs2]
    cases inst <;> rfl

/-- C9 witness: on the initially empty table, register port 5 under
`USART2`, then register port 3 under `USART1`; looking up `USART2`
yields 5, and looking up `USART2` after only a `USART3` registration
yields `nullptr`. -/
theorem c9_witness :
    (UartInstance.usart2 ≠ UartInstance.other ∧
     (∀ r ∈ [(UartInstance.usart1, 3)], r.1 ≠ UartInstance.usart2)) ∧
    fromHandle (registerAll (registerInstance initialTable UartInstance.usart2 5)
        [(UartInstance.usart1, 3)]) UartInstance.usart2 = some 5 ∧
    fromHandle (registerAll initialTable [(UartInstance.usart3, 4)])
        UartInstance.usart2 = none :=
  ⟨⟨by decide, by decide⟩,
   (c9_registry_lookup initialTable UartInstance.usart2 5 [(UartInstance.usart1, 3)]
     (by decide) (by decide)).1,
   (c9_registry_lookup initialTable UartInstance.usart2 5 [(UartInstance.usart1, 3)]
     (by decide) (by decide)).2 [(UartInstance.usart3, 4)] (by decide)⟩

/-- C10 counterexample: the claim says constructing a port leaves the
registry table unchanged, but line 18 of the constructor calls
`registerInstance(_huart, this)`: constructing a port for `USART1` on
the empty table changes slot 0 from `nullptr` to the new instance. -/
theorem c10_counterexample :
    (construct initialTable UartInstance.usart1 7 witnessUart 4).1 ≠ initialTable := by
  intro hcontra
  have h0 := congrFun hcontra (0 : Fin 6)
  simp [construct, registerInstance, instanceIndex, initialTable,
    Function.update_apply] at h0

/-- C10 amended: the registry table is modified only through
`registerInstance`, but the constructor itself performs such a call
(line 18), so constructing a `STM32BufferedSerial` registers the new
instance as a side effect — its table effect is exactly
`registerInstance`; and no operation ever removes an entry: a slot that
is occupied stays occupied across any registration. -/
theorem c10_registry_frame (tbl : RegistryTable) (inst : UartInstance)
    (self : Nat) (huart : Uart) (bufSize : Nat) :
    (construct tbl inst self huart bufSize).1 = registerInstance tbl inst self ∧
    (∀ i : Fin 6, tbl i ≠ none → registerInstance tbl inst self i ≠ none) := by
  refine ⟨rfl, ?_⟩
  intro i hi
  unfold registerInstance
  cases hidx : instanceIndex inst with
  | none => exact hi
  | some j =>
    dsimp only
    rw [Function.update_apply]
    split_ifs with hij
    · simp
    · exact hi

/-- A registry table with every slot occupied (by port 1). -/
def occupiedTable : RegistryTable := fun _ => some 1

/-- C10 witness: constructing over an occupied table acts exactly as a
registration and removes no entry. -/
theorem c10_witness :
    occupiedTable 0 ≠ none ∧
    (construct occupiedTable UartInstance.usart2 9 witnessUart 4).1 =
      registerInstance occupiedTable UartInstance.usart2 9 ∧
    registerInstance occupiedTable UartInstance.usart2 9 0 ≠ none :=
  ⟨by decide,
   (c10_registry_frame occupiedTable UartInstance.usart2 9 witnessUart 4).1,
   (c10_registry_frame occupiedTable UartInstance.usart2 9 witnessUart 4).2 0
     (by decide)⟩

end BufferedSerial
